import Mathlib

/-!
Verification development for the QP-Wasser LabData Manager.

The definitions below are shallow embeddings of the TypeScript source:
strings are Lean `String`s (JavaScript string primitives `toUpperCase`,
`trim`, `includes` are modelled character-wise on the underlying list),
JavaScript numbers that the code guards with `isNaN` checks are
`Option ℚ` (`none` is NaN / missing), JavaScript `Set` is `Finset`,
and a JavaScript object used as a string map is an insertion-ordered
association list with overwriting insert.
-/

/-- Character-wise upper casing, as JavaScript `toUpperCase` acts on the
ASCII letters (non-ASCII characters are untouched; none of the matched
patterns contain non-ASCII characters). -/
def jsCharUpper (c : Char) : Char :=
  if 'a' ≤ c ∧ c ≤ 'z' then Char.ofNat (c.toNat - 32) else c

/-- Model of JavaScript `String.prototype.toUpperCase` on ASCII data. -/
def jsToUpper (s : String) : String :=
  String.mk (s.data.map jsCharUpper)

/-- Whitespace predicate used by the model of `String.prototype.trim`. -/
def isWsChar (c : Char) : Bool :=
  c = ' ' || c = '\t' || c = '\n' || c = '\r'

/-- Model of JavaScript `String.prototype.trim`. -/
def jsTrim (s : String) : String :=
  String.mk (((s.data.dropWhile isWsChar).reverse.dropWhile isWsChar).reverse)

/-- Substring test on character lists: does `l` contain `pat` as a
contiguous infix?  (JavaScript `includes`.) -/
def containsList (pat : List Char) : List Char → Bool
  | [] => pat.isEmpty
  | c :: rest => List.isPrefixOf pat (c :: rest) || containsList pat rest

/-- Model of JavaScript `s.includes(pat)`. -/
def containsSubstr (s pat : String) : Bool :=
  containsList pat.data s.data

/-- The closed set of device groups (`type DeviceGroup` in the source). -/
inductive DeviceGroup where
  | pHLFTIT
  | TOC
  | IC
  | ICPOES
  | Sonstige
deriving DecidableEq, Repr

/-- `GROUP_ORDER` from the source: the fixed display order of groups. -/
def GROUP_ORDER : List DeviceGroup :=
  [.pHLFTIT, .TOC, .IC, .ICPOES, .Sonstige]

/-- `getDeviceGroup` as defined in the selection component
(`DataSelection`): an ordered first-match chain of substring tests on
the upper-cased name. -/
def getDeviceGroup (headerBase : String) : DeviceGroup :=
  let h := jsToUpper headerBase
  if containsSubstr h "TIT" || containsSubstr h "M1." || containsSubstr h "M3." ||
     containsSubstr h "M8." || containsSubstr h "HH+PHM" || containsSubstr h "LFLFM" then
    .pHLFTIT
  else if containsSubstr h "TOC" then .TOC
  else if containsSubstr h "ICP" then .ICPOES
  else if containsSubstr h "IC" then .IC
  else .Sonstige

/-- `getDeviceGroup` as duplicated in the report component
(`ReportView`); textually the same chain. -/
def getDeviceGroupReport (header : String) : DeviceGroup :=
  let h := jsToUpper header
  if containsSubstr h "TIT" || containsSubstr h "M1." || containsSubstr h "M3." ||
     containsSubstr h "M8." || containsSubstr h "HH+PHM" || containsSubstr h "LFLFM" then
    .pHLFTIT
  else if containsSubstr h "TOC" then .TOC
  else if containsSubstr h "ICP" then .ICPOES
  else if containsSubstr h "IC" then .IC
  else .Sonstige

/-- The pH-LF-TIT branch condition of the classification chain. -/
def phMarker (name : String) : Bool :=
  containsSubstr (jsToUpper name) "TIT" || containsSubstr (jsToUpper name) "M1." ||
  containsSubstr (jsToUpper name) "M3." || containsSubstr (jsToUpper name) "M8." ||
  containsSubstr (jsToUpper name) "HH+PHM" || containsSubstr (jsToUpper name) "LFLFM"

/-!
Ion-balance engine (`IonBalanceAnalysis.processedData` and the identical
code in `ReportView.handleExcelExport`).  A JavaScript number that may be
NaN (the result of `parseGermanFloat`) is `Option ℚ`; every use in the
source is guarded by `isNaN`.
-/

/-- The rounding performed by `parseFloat(x.toFixed(2))`: round to two
decimal places, ties toward plus infinity (the ECMAScript `toFixed`
contract picks the larger candidate integer). -/
def round2 (q : ℚ) : ℚ :=
  ((⌊q * 100 + 1 / 2⌋ : ℤ) : ℚ) / 100

/-- Model of `!isNaN(x) && x > b`. -/
def numGT (x : Option ℚ) (b : ℚ) : Bool :=
  match x with
  | some v => decide (b < v)
  | none => false

/-- Model of `!isNaN(x) && x < b`. -/
def numLT (x : Option ℚ) (b : ℚ) : Bool :=
  match x with
  | some v => decide (v < b)
  | none => false

/-- `isIbOk`: the ion-balance diagnostic.  The raw quotient is rounded to
two decimals and the rounded value is compared against `[0.9, 1.1]`,
both bounds inclusive; a NaN quotient is never ok. -/
def isIbOk (qIons : Option ℚ) : Bool :=
  match qIons with
  | none => false
  | some q => decide (9 / 10 ≤ round2 q) && decide (round2 q ≤ 11 / 10)

/-- `calculatedCondQuotient`: measured conductivity divided by the
theoretical conductivity; NaN (here `none`) when either operand is
missing or the theoretical value is zero. -/
def condQuotient (cond theo : Option ℚ) : Option ℚ :=
  match cond, theo with
  | some c, some t => if t = 0 then none else some (c / t)
  | _, _ => none

/-- `isLfOk`: the conductivity diagnostic.  `false` when the quotient is
undefined; otherwise a tolerance band chosen by the magnitude of the
measured conductivity. -/
def isLfOk (cond theo : Option ℚ) : Bool :=
  match cond, theo with
  | some c, some t =>
    if t = 0 then false
    else
      if 20 < c then decide (9 / 10 ≤ c / t) && decide (c / t ≤ 11 / 10)
      else if 10 ≤ c then decide (8 / 10 ≤ c / t) && decide (c / t ≤ 12 / 10)
      else decide (7 / 10 ≤ c / t) && decide (c / t ≤ 13 / 10)
  | _, _ => false

/-- `bem`: the derived remark.  Empty for repeat rows; otherwise chosen
from the availability of the two diagnostics and their verdicts. -/
def bemerkung (isRepeat : Bool) (qIons cond theo : Option ℚ) : String :=
  if isRepeat then ""
  else
    let ibOk := isIbOk qIons
    let lfOk := isLfOk cond theo
    let hasIb := qIons.isSome
    let hasLf := (condQuotient cond theo).isSome
    if hasIb && hasLf then
      if ibOk && lfOk then "ok"
      else if ibOk && !lfOk then "IB ok, LF nicht"
      else if !ibOk && lfOk then "IB nicht ok ; LF ok"
      else "IB nicht ok + LF nicht ok"
    else if hasIb && !hasLf then
      if ibOk then "IB ok" else "IB nicht ok"
    else ""

/-- The remark table as the specification words it: a verdict per
availability/ok pattern.  Companion definition for the refinement proof
of the remark logic. -/
def bemSpec (hasIb hasLf ibOk lfOk : Bool) : String :=
  if hasIb && hasLf then
    match ibOk, lfOk with
    | true, true => "ok"
    | true, false => "IB ok, LF nicht"
    | false, true => "IB nicht ok ; LF ok"
    | false, false => "IB nicht ok + LF nicht ok"
  else if hasIb then
    if ibOk then "IB ok" else "IB nicht ok"
  else ""

/-- `autoComment`: the ordered auto-comment chain of the source, first
match wins.  `corg` is the parsed organic-carbon value, `cond` the
selected measured conductivity. -/
def autoComment (isRepeat : Bool) (corg cond theo qIons : Option ℚ) : String :=
  if isRepeat then ""
  else
    let ibOk := isIbOk qIons
    let lfOk := isLfOk cond theo
    let isDeviation := !ibOk || !lfOk
    if isDeviation && numGT corg 20 then "Corg>20"
    else if isDeviation && numGT corg 10 && numLT cond 50 then "Corg>10 LTF<50"
    else if numGT cond 300 && !lfOk then "gilt nur für Ideal verdünnte Lösungen"
    else if isDeviation && numLT cond 30 then "Leitfähigkeit < 30"
    else ""

/-- The auto-comment chain as the specification words it: no comment
unless a deviation is present, then the four-rule ordered chain.
Companion definition for the refinement proof. -/
def autoCommentSpec (ibOk lfOk : Bool) (corg cond : Option ℚ) : String :=
  if ibOk && lfOk then ""
  else if numGT corg 20 then "Corg>20"
  else if numGT corg 10 && numLT cond 50 then "Corg>10 LTF<50"
  else if numGT cond 300 && !lfOk then "gilt nur für Ideal verdünnte Lösungen"
  else if numLT cond 30 then "Leitfähigkeit < 30"
  else ""

/-!
Report colour resolution (`ReportView.getRowColorClass`).  The row's
active base-parameter set is the array `s = Array.from(activeParams)`;
only membership tests are performed, so a `List String` input is
faithful.  The model returns the export hex colour of each branch.
-/

/-- The `has` helper of `getRowColorClass`: some member of `s` contains
`pat`, case-insensitively. -/
def hasParam (s : List String) (pat : String) : Bool :=
  s.any fun c => containsSubstr (jsToUpper c) (jsToUpper pat)

/-- A single parameter name matches the P priority name-set. -/
def matchesP (c : String) : Bool :=
  containsSubstr (jsToUpper c) "PPO4IC" || containsSubstr (jsToUpper c) "PPGESICP"

/-- A single parameter name matches the S priority name-set. -/
def matchesS (c : String) : Bool :=
  containsSubstr (jsToUpper c) "SSO4IC" || containsSubstr (jsToUpper c) "SSGESICP"

/-- A single parameter name matches the N priority name-set. -/
def matchesN (c : String) : Bool :=
  containsSubstr (jsToUpper c) "NNGESTOC" || containsSubstr (jsToUpper c) "NNH4IC" ||
  containsSubstr (jsToUpper c) "NNO2IC" || containsSubstr (jsToUpper c) "NNO3IC" ||
  containsSubstr (jsToUpper c) "CGES"

/-- The `hasPH` test of `getRowColorClass`: any pH-LF-TIT marker occurs
in the active set. -/
def hasPHmark (s : List String) : Bool :=
  hasParam s "TIT" || hasParam s "M1." || hasParam s "M3." ||
  hasParam s "M8." || hasParam s "HH+PHM" || hasParam s "LFLFM"

/-- `getRowColorClass`, reduced to the hex colour it returns: empty set
gives the default, then the three priority rules, then the four
device-group rules, first match wins. -/
def getRowColorHex (s : List String) : String :=
  if s.isEmpty then "FFFFFF"
  else if !s.isEmpty && s.all matchesP then "FFFFCC"
  else if !s.isEmpty && s.all matchesS then "FFDDBB"
  else if !s.isEmpty && s.all matchesN then "FFCCFF"
  else if hasPHmark s && !hasParam s "TOC" && !hasParam s "IC" && !hasParam s "ICP" then
    "E6CCFF"
  else if hasParam s "TOC" && hasParam s "IC" && !hasParam s "ICP" && !hasPHmark s then
    "FFCCCC"
  else if hasParam s "IC" && hasParam s "ICP" && !hasParam s "TOC" && !hasPHmark s then
    "CCE5FF"
  else if hasParam s "TOC" && hasParam s "IC" && hasParam s "ICP" then "CCFFCC"
  else "FFFFFF"

/-!
Selection model (`DataSelection`).  `SelectionState` carries the set of
selected row ids and, per row id, the optionally-present set of active
base parameters (a JavaScript object of `Set`s; an absent key reads as
an empty set via the falsy check).
-/

/-- The selection state of the source (`selectedRowIds` plus the
`rowParams` map). -/
@[ext]
structure SelectionState where
  selectedRowIds : Finset String
  rowParams : String → Option (Finset String)

/-- `toggleRowParam`: flip one base parameter in one row's active set,
reading an absent entry as the empty set and writing the updated set
back under the row id. -/
def toggleRowParam (st : SelectionState) (rowId baseParam : String) : SelectionState :=
  let currentParams := (st.rowParams rowId).getD ∅
  let newParams :=
    if baseParam ∈ currentParams then currentParams.erase baseParam
    else insert baseParam currentParams
  { st with rowParams := fun k => if k = rowId then some newParams else st.rowParams k }

/-- The three named chemical sets of `toggleChemSet`. -/
inductive ChemType where
  | P
  | S
  | N
deriving DecidableEq

/-- The per-set name filter of `toggleChemSet` (same substring patterns
as the priority colour rules). -/
def chemMatch : ChemType → String → Bool
  | .P, p => matchesP p
  | .S, p => matchesS p
  | .N, p => matchesN p

/-- `toggleChemSet`: exclusive-replace of a row's active set by the
parameters of the row that match the chemical set; no-op when nothing
matches. -/
def toggleChemSet (st : SelectionState) (rowId : String) (t : ChemType)
    (rowParams : List String) : SelectionState :=
  let targetParams := rowParams.filter (chemMatch t)
  if targetParams.isEmpty then st
  else
    { st with
      rowParams := fun k => if k = rowId then some targetParams.toFinset else st.rowParams k }

/-- A small concrete selection state used by the witnesses. -/
def sampleSelection : SelectionState where
  selectedRowIds := {"row-2"}
  rowParams := fun k => if k = "r1" then some ({"NgesTOC", "ICCa"} : Finset String) else none

/-!
CSV ingestion (`parseLabDataCsv`).  Raw rows are lists of cell strings.
A JavaScript object used as a string-keyed record is an
insertion-ordered association list with overwriting assignment
(`objInsert`).  The German-locale `localeCompare` collation is an
external library behaviour and enters the model as an abstract boolean
comparator `le`.
-/

/-- JavaScript object assignment `m[k] = v`: overwrite in place when the
key exists, append otherwise. -/
def objInsert (m : List (String × String)) (k v : String) : List (String × String) :=
  if k ∈ m.map Prod.fst then m.map fun e => if e.1 = k then (k, v) else e
  else m ++ [(k, v)]

/-- `LabDataRow` of the source (`types.ts`). -/
structure LabDataRow where
  id : String
  seriesId : String
  sampleId : String
  isRepeat : Bool
  rawRepeatValue : String
  results : List (String × String)
deriving DecidableEq

/-- `ParsedDataset` of the source, restricted to the fields the core
logic reads (`fileName` and `uploadDate` are carried along unchanged
and never inspected). -/
structure ParsedDataset where
  resultHeaders : List String
  data : List LabDataRow
deriving DecidableEq

/-- Step 1 of the parser: collect `(trimmedName, originalIndex)` for
every non-blank header cell from column index 7 on. -/
def headerMapping (headerRow : List String) : List (String × Nat) :=
  headerRow.enum.filterMap fun p =>
    if 7 ≤ p.1 ∧ p.2 ≠ "" ∧ jsTrim p.2 ≠ "" then some (jsTrim p.2, p.1) else none

/-- One parsed data row: fixed columns 0, 1 and 3 plus the results
object filled from each header's original column index. -/
def mkRow (mapping : List (String × Nat)) (i : Nat) (row : List String) : LabDataRow where
  id := "row-" ++ toString i
  seriesId := jsTrim (row.getD 0 "")
  sampleId := jsTrim (row.getD 1 "")
  isRepeat := jsTrim (row.getD 3 "") == "2"
  rawRepeatValue := jsTrim (row.getD 3 "")
  results := mapping.foldl (fun m item => objInsert m item.1 (jsTrim (row.getD item.2 ""))) []

/-- The data-row loop from row index 2: skip rows with fewer than two
cells (or a single empty cell), keep the rest. -/
def buildRows (mapping : List (String × Nat)) : Nat → List (List String) → List LabDataRow
  | _, [] => []
  | i, row :: rest =>
    if row.length < 2 ∨ (row.length = 1 ∧ row.getD 0 "" = "") then
      buildRows mapping (i + 1) rest
    else mkRow mapping i row :: buildRows mapping (i + 1) rest

/-- `parseLabDataCsv` over already-decoded raw rows: fail on fewer than
three rows or a missing header row, sort the header mapping by the
collation `le`, then build the data rows. -/
def parseLabDataCsv (le : String → String → Bool) (rawRows : List (List String)) :
    Except String ParsedDataset :=
  if rawRows.length < 3 then
    .error "Die Datei scheint leer zu sein oder hat nicht genügend Zeilen (Header + Daten)."
  else
    match rawRows[1]? with
    | none => .error "Konnte die Header-Zeile (Zeile 2) nicht lesen."
    | some headerRow =>
      let mapping :=
        List.insertionSort (fun a b => le a.1 b.1 = true) (headerMapping headerRow)
      .ok { resultHeaders := mapping.map Prod.fst, data := buildRows mapping 2 (rawRows.drop 2) }

/-- A concrete comparator (compare by length) used by the witnesses in
place of the external German collation; it is total and transitive. -/
def lenLe (a b : String) : Bool := decide (a.length ≤ b.length)

/-- A concrete raw input used by the witnesses: five rows, a duplicated
header text "B", one well-formed data row with a repeat flag, one
malformed row to be skipped, and one short data row. -/
def rowsEx : List (List String) :=
  [[],
   ["", "", "", "", "", "", "", "B", "A", "B"],
   ["s1", "p1", "", "2", "", "", "", "v1", "v2", "v3"],
   [""],
   ["s2", "p2"]]

/-- The dataset that `parseLabDataCsv lenLe rowsEx` produces. -/
def dsEx : ParsedDataset where
  resultHeaders := ["B", "A", "B"]
  data :=
    [{ id := "row-2", seriesId := "s1", sampleId := "p1", isRepeat := true,
       rawRepeatValue := "2", results := [("B", "v3"), ("A", "v2")] },
     { id := "row-4", seriesId := "s2", sampleId := "p2", isRepeat := false,
       rawRepeatValue := "", results := [("B", ""), ("A", "")] }]

/-!
Theorems.
-/

/-- C1: the device-classification function is total and evaluates an
ordered first-match chain on the upper-cased name (pH markers, then
"TOC", then "ICP", then "IC", else Sonstige); the sample inputs
classify as stated and the two duplicated implementations (selection
component and report component) compute the same function. -/
theorem c1_device_classification :
    (∀ name, getDeviceGroup name = getDeviceGroupReport name) ∧
    (∀ name,
      (getDeviceGroup name = .pHLFTIT ↔ phMarker name = true) ∧
      (getDeviceGroup name = .TOC ↔
        phMarker name = false ∧ containsSubstr (jsToUpper name) "TOC" = true) ∧
      (getDeviceGroup name = .ICPOES ↔
        phMarker name = false ∧ containsSubstr (jsToUpper name) "TOC" = false ∧
          containsSubstr (jsToUpper name) "ICP" = true) ∧
      (getDeviceGroup name = .IC ↔
        phMarker name = false ∧ containsSubstr (jsToUpper name) "TOC" = false ∧
          containsSubstr (jsToUpper name) "ICP" = false ∧
          containsSubstr (jsToUpper name) "IC" = true) ∧
      (getDeviceGroup name = .Sonstige ↔
        phMarker name = false ∧ containsSubstr (jsToUpper name) "TOC" = false ∧
          containsSubstr (jsToUpper name) "ICP" = false ∧
          containsSubstr (jsToUpper name) "IC" = false)) ∧
    getDeviceGroup "ICPFe1.1" = .ICPOES ∧
    getDeviceGroup "ICCa2.1" = .IC ∧
    getDeviceGroup "M3.TIT" = .pHLFTIT := by
  refine ⟨fun _ => rfl, fun name => ?_, by decide, by decide, by decide⟩
  have e : getDeviceGroup name =
      (if phMarker name then .pHLFTIT
       else if containsSubstr (jsToUpper name) "TOC" then .TOC
       else if containsSubstr (jsToUpper name) "ICP" then .ICPOES
       else if containsSubstr (jsToUpper name) "IC" then .IC
       else .Sonstige) := rfl
  rw [e]
  cases hp : phMarker name <;>
    cases ht : containsSubstr (jsToUpper name) "TOC" <;>
      cases hi : containsSubstr (jsToUpper name) "ICP" <;>
        cases hc : containsSubstr (jsToUpper name) "IC" <;>
          simp

/-- Helper: the two-decimal rounding evaluated at a rational whose
scaled-and-shifted value lies between `z` and `z + 1`. -/
theorem round2_eq_of (q : ℚ) (z : ℤ) (h1 : (z : ℚ) ≤ q * 100 + 1 / 2)
    (h2 : q * 100 + 1 / 2 < (z : ℚ) + 1) : round2 q = (z : ℚ) / 100 := by
  unfold round2
  rw [Int.floor_eq_iff.mpr ⟨h1, h2⟩]

/-- C2: the ion-balance engine rounds the parsed ion quotient to two
decimal places with round-half-up on the third decimal digit (the
standard `round` of the scaled value), and the diagnostic is valid iff
the rounded value lies in the inclusive interval `[0.9, 1.1]`; the
sample quotients `1.004`, `1.114`, `0.90`, `1.10` behave as stated. -/
theorem c2_ion_balance_rounding :
    (∀ q : ℚ, round2 q = ((round (100 * q) : ℤ) : ℚ) / 100 ∧
      (isIbOk (some q) = true ↔ 9 / 10 ≤ round2 q ∧ round2 q ≤ 11 / 10)) ∧
    isIbOk none = false ∧
    round2 (1004 / 1000) = 1 ∧ isIbOk (some (1004 / 1000)) = true ∧
    round2 (1114 / 1000) = 111 / 100 ∧ isIbOk (some (1114 / 1000)) = false ∧
    isIbOk (some (9 / 10)) = true ∧ isIbOk (some (11 / 10)) = true := by
  have hiff : ∀ q : ℚ, isIbOk (some q) = true ↔
      9 / 10 ≤ round2 q ∧ round2 q ≤ 11 / 10 := by
    intro q
    simp [isIbOk]
  have e1 : round2 (1004 / 1000) = 1 := by
    rw [round2_eq_of (1004 / 1000) 100 (by norm_num) (by norm_num)]
    norm_num
  have e2 : round2 (1114 / 1000) = 111 / 100 := by
    rw [round2_eq_of (1114 / 1000) 111 (by norm_num) (by norm_num)]
    norm_num
  have e3 : round2 (9 / 10) = 9 / 10 := by
    rw [round2_eq_of (9 / 10) 90 (by norm_num) (by norm_num)]
    norm_num
  have e4 : round2 (11 / 10) = 11 / 10 := by
    rw [round2_eq_of (11 / 10) 110 (by norm_num) (by norm_num)]
    norm_num
  refine ⟨fun q => ⟨?_, hiff q⟩, rfl, e1, ?_, e2, ?_, ?_, ?_⟩
  · unfold round2
    rw [round_eq, mul_comm 100 q]
  · rw [hiff, e1]
    norm_num
  · cases h : isIbOk (some (1114 / 1000)) with
    | false => rfl
    | true =>
      exfalso
      have hb := (hiff _).mp h
      rw [e2] at hb
      norm_num at hb
  · rw [hiff, e3]
    norm_num
  · rw [hiff, e4]
    norm_num

/-- C3: the conductivity quotient is measured divided by theoretical,
undefined exactly when an operand is missing or the theoretical value
is zero (and then the diagnostic is not valid); when defined, validity
is the inclusive tolerance band selected by the measured magnitude. -/
theorem c3_conductivity_quotient :
    ∀ cond theo : Option ℚ,
      (condQuotient cond theo = none ↔
        cond = none ∨ theo = none ∨ theo = some 0) ∧
      (condQuotient cond theo = none → isLfOk cond theo = false) ∧
      (∀ m t, cond = some m → theo = some t → t ≠ 0 →
        condQuotient cond theo = some (m / t) ∧
        (isLfOk cond theo = true ↔
          (if 20 < m then 9 / 10 ≤ m / t ∧ m / t ≤ 11 / 10
           else if 10 ≤ m then 8 / 10 ≤ m / t ∧ m / t ≤ 12 / 10
           else 7 / 10 ≤ m / t ∧ m / t ≤ 13 / 10))) := by
  intro cond theo
  rcases cond with _ | m <;> rcases theo with _ | t
  · exact ⟨by simp [condQuotient], fun _ => by simp [isLfOk],
      fun m t hm ht hne => by cases hm⟩
  · exact ⟨by simp [condQuotient], fun _ => by simp [isLfOk],
      fun m' t' hm ht hne => by cases hm⟩
  · exact ⟨by simp [condQuotient], fun _ => by simp [isLfOk],
      fun m' t' hm ht hne => by cases ht⟩
  · refine ⟨?_, ?_, ?_⟩
    · by_cases h0 : t = 0 <;> simp [condQuotient, h0]
    · intro h
      by_cases h0 : t = 0
      · simp [isLfOk, h0]
      · exfalso
        simp [condQuotient, h0] at h
    · rintro m' t' hm ht hne
      obtain rfl : m' = m := by injection hm with h; exact h.symm
      obtain rfl : t' = t := by injection ht with h; exact h.symm
      refine ⟨by simp [condQuotient, hne], ?_⟩
      simp only [isLfOk, if_neg hne]
      split_ifs <;> simp

/-- C3 witness: the band examples — measured 25 over theoretical 25 is
valid in the strict band, measured 15 over theoretical 10 is invalid in
the middle band. -/
theorem c3_conductivity_quotient_witness :
    isLfOk (some (25 : ℚ)) (some 25) = true ∧
    isLfOk (some (15 : ℚ)) (some 10) = false := by
  have h1 := (c3_conductivity_quotient (some 25) (some 25)).2.2 25 25 rfl rfl
    (by norm_num)
  have h2 := (c3_conductivity_quotient (some 15) (some 10)).2.2 15 10 rfl rfl
    (by norm_num)
  constructor
  · refine h1.2.mpr ?_
    rw [if_pos (by norm_num)]
    norm_num
  · cases h : isLfOk (some (15 : ℚ)) (some 10) with
    | false => rfl
    | true =>
      exfalso
      have hb := h2.2.mp h
      rw [if_neg (by norm_num), if_pos (by norm_num)] at hb
      norm_num at hb

/-- C4: for non-repeat rows, the auto-comment is empty when both
diagnostics are valid and otherwise follows the ordered first-match
chain of the specification; a repeat row never receives an
auto-comment, and organic-carbon 25 with any deviation always yields
"Corg>20". -/
theorem c4_auto_comment :
    ∀ corg cond theo qIons : Option ℚ,
      autoComment true corg cond theo qIons = "" ∧
      (isIbOk qIons = true → isLfOk cond theo = true →
        autoComment false corg cond theo qIons = "") ∧
      autoComment false corg cond theo qIons =
        autoCommentSpec (isIbOk qIons) (isLfOk cond theo) corg cond ∧
      (corg = some 25 → (isIbOk qIons = false ∨ isLfOk cond theo = false) →
        autoComment false corg cond theo qIons = "Corg>20") := by
  intro corg cond theo qIons
  refine ⟨rfl, ?_, ?_, ?_⟩
  · intro h1 h2
    simp [autoComment, h1, h2]
  · cases hib : isIbOk qIons <;> cases hlf : isLfOk cond theo <;>
      simp [autoComment, autoCommentSpec, hib, hlf]
  · rintro rfl hdev
    have hdev' : (!isIbOk qIons || !isLfOk cond theo) = true := by
      rcases hdev with h | h <;> simp [h]
    have h25 : numGT (some (25 : ℚ)) 20 = true := by
      simp only [numGT, decide_eq_true_eq]
      norm_num
    simp [autoComment, hdev', h25]

/-- C4 witness: a concrete non-repeat row with organic carbon 25 and a
deviation (missing ion quotient) receives the auto-comment "Corg>20". -/
theorem c4_auto_comment_witness :
    autoComment false (some 25) none none none = "Corg>20" := by
  exact (c4_auto_comment (some 25) none none none).2.2.2 rfl (Or.inl rfl)

/-- C7: the derived remark is empty for repeat rows and otherwise is the
verdict table over diagnostic availability and the (ibOk, lfOk) pair. -/
theorem c7_remark :
    ∀ qIons cond theo : Option ℚ,
      bemerkung true qIons cond theo = "" ∧
      bemerkung false qIons cond theo =
        bemSpec qIons.isSome (condQuotient cond theo).isSome
          (isIbOk qIons) (isLfOk cond theo) := by
  intro qIons cond theo
  refine ⟨rfl, ?_⟩
  cases hib : isIbOk qIons <;> cases hlf : isLfOk cond theo <;>
    cases hhi : qIons.isSome <;> cases hhl : (condQuotient cond theo).isSome <;>
      simp [bemerkung, bemSpec, hib, hlf, hhi, hhl]

/-- C5: row colour resolution is the ordered first-match chain — empty
active set gives the default, the three priority rules are decided
strictly before the four group rules, and each rule fires exactly under
its stated condition once the earlier rules have failed. -/
theorem c5_row_color :
    getRowColorHex [] = "FFFFFF" ∧
    ∀ s : List String, s ≠ [] →
      (s.all matchesP = true → getRowColorHex s = "FFFFCC") ∧
      (s.all matchesP = false → s.all matchesS = true →
        getRowColorHex s = "FFDDBB") ∧
      (s.all matchesP = false → s.all matchesS = false → s.all matchesN = true →
        getRowColorHex s = "FFCCFF") ∧
      (s.all matchesP = false → s.all matchesS = false → s.all matchesN = false →
        hasPHmark s = true → hasParam s "TOC" = false → hasParam s "IC" = false →
        hasParam s "ICP" = false → getRowColorHex s = "E6CCFF") ∧
      (s.all matchesP = false → s.all matchesS = false → s.all matchesN = false →
        hasParam s "TOC" = true → hasParam s "IC" = true →
        hasParam s "ICP" = false → hasPHmark s = false →
        getRowColorHex s = "FFCCCC") ∧
      (s.all matchesP = false → s.all matchesS = false → s.all matchesN = false →
        hasParam s "IC" = true → hasParam s "ICP" = true →
        hasParam s "TOC" = false → hasPHmark s = false →
        getRowColorHex s = "CCE5FF") ∧
      (s.all matchesP = false → s.all matchesS = false → s.all matchesN = false →
        hasParam s "TOC" = true → hasParam s "IC" = true →
        hasParam s "ICP" = true → getRowColorHex s = "CCFFCC") ∧
      (s.all matchesP = false → s.all matchesS = false → s.all matchesN = false →
        hasParam s "TOC" = true → hasParam s "IC" = true →
        hasParam s "ICP" = false → hasPHmark s = true →
        getRowColorHex s = "FFFFFF") := by
  refine ⟨rfl, ?_⟩
  intro s h
  have hE : s.isEmpty = false := by
    cases s with
    | nil => exact absurd rfl h
    | cons a l => rfl
  refine ⟨?_, ?_, ?_, ?_, ?_, ?_, ?_, ?_⟩ <;>
    intros <;> simp [getRowColorHex, hE, *]

/-- C5 witness: the three sample sets — a lone P parameter is priority
coloured, one TOC plus one IC plus one ICP parameter is the "ALL"
colour, and a TOC/IC/pH mix falls through to the default. -/
theorem c5_row_color_witness :
    getRowColorHex ["PPO4IC"] = "FFFFCC" ∧
    getRowColorHex ["TOCx", "ICCa", "ICPFe"] = "CCFFCC" ∧
    getRowColorHex ["TOCx", "ICCa", "TITalk"] = "FFFFFF" := by
  refine ⟨?_, ?_, ?_⟩
  · exact (c5_row_color.2 ["PPO4IC"] (by decide)).1 (by decide)
  · exact (c5_row_color.2 ["TOCx", "ICCa", "ICPFe"] (by decide)).2.2.2.2.2.2.1
      (by decide) (by decide) (by decide) (by decide) (by decide) (by decide)
  · exact (c5_row_color.2 ["TOCx", "ICCa", "TITalk"] (by decide)).2.2.2.2.2.2.2
      (by decide) (by decide) (by decide) (by decide) (by decide) (by decide)
      (by decide)

/-- C6: the chemical-set toggle is an exclusive replace — it rewrites
the row's entire active set to exactly the available parameters
matching the set's name list, leaves the selected row ids and every
other row untouched, and is a no-op when nothing matches. -/
theorem c6_chem_set_exclusive_replace :
    ∀ (st : SelectionState) (rowId : String) (t : ChemType) (avail : List String),
      (avail.filter (chemMatch t) = [] → toggleChemSet st rowId t avail = st) ∧
      (avail.filter (chemMatch t) ≠ [] →
        (toggleChemSet st rowId t avail).selectedRowIds = st.selectedRowIds ∧
        (toggleChemSet st rowId t avail).rowParams rowId =
          some (avail.filter (chemMatch t)).toFinset ∧
        (∀ p, p ∈ (avail.filter (chemMatch t)).toFinset ↔
          p ∈ avail ∧ chemMatch t p = true) ∧
        (∀ k, k ≠ rowId →
          (toggleChemSet st rowId t avail).rowParams k = st.rowParams k)) := by
  intro st rowId t avail
  constructor
  · intro h
    simp [toggleChemSet, h]
  · intro h
    have hne : (avail.filter (chemMatch t)).isEmpty = false := by
      cases hf : avail.filter (chemMatch t) with
      | nil => exact absurd hf h
      | cons a l => rfl
    refine ⟨?_, ?_, ?_, ?_⟩
    · simp [toggleChemSet, hne]
    · simp [toggleChemSet, hne]
    · intro p
      simp [List.mem_toFinset, List.mem_filter]
    · intro k hk
      simp [toggleChemSet, hne, hk]

/-- C6 witness: selecting the S set on a row whose previously active
parameters were a TOC and an IC parameter leaves exactly the S-matching
parameter active and the selected row ids unchanged. -/
theorem c6_chem_set_witness :
    (toggleChemSet sampleSelection "r1" ChemType.S
      ["SSO4IC", "NgesTOC", "ICCa"]).rowParams "r1" =
      some ({"SSO4IC"} : Finset String) ∧
    (toggleChemSet sampleSelection "r1" ChemType.S
      ["SSO4IC", "NgesTOC", "ICCa"]).selectedRowIds =
      sampleSelection.selectedRowIds := by
  have h := (c6_chem_set_exclusive_replace sampleSelection "r1" ChemType.S
    ["SSO4IC", "NgesTOC", "ICCa"]).2 (by decide)
  refine ⟨h.2.1.trans ?_, h.1⟩
  decide

/-- C10: on a row that already has a parameter entry, toggling one base
parameter twice restores the original selection state, and one toggle
changes nothing but that row's entry. -/
theorem c10_toggle_row_param :
    ∀ (st : SelectionState) (rowId p : String) (s : Finset String),
      st.rowParams rowId = some s →
      toggleRowParam (toggleRowParam st rowId p) rowId p = st ∧
      (toggleRowParam st rowId p).selectedRowIds = st.selectedRowIds ∧
      ∀ k, k ≠ rowId → (toggleRowParam st rowId p).rowParams k = st.rowParams k := by
  intro st rowId p s hs
  have htog : ∀ u : Finset String,
      (if p ∈ (if p ∈ u then u.erase p else insert p u) then
        (if p ∈ u then u.erase p else insert p u).erase p
       else insert p (if p ∈ u then u.erase p else insert p u)) = u := by
    intro u
    by_cases hp : p ∈ u
    · rw [if_pos hp, if_neg (Finset.not_mem_erase p u), Finset.insert_erase hp]
    · rw [if_neg hp, if_pos (Finset.mem_insert_self p u), Finset.erase_insert hp]
  refine ⟨?_, rfl, ?_⟩
  · apply SelectionState.ext
    · rfl
    · funext k
      by_cases hk : k = rowId
      · subst hk
        simp [toggleRowParam, hs, htog]
      · simp [toggleRowParam, hk]
  · intro k hk
    simp [toggleRowParam, hk]

/-- C10 witness: double-toggling "ICCa" on the sample state restores it
exactly, and a single toggle keeps the selected row ids. -/
theorem c10_toggle_row_param_witness :
    toggleRowParam (toggleRowParam sampleSelection "r1" "ICCa") "r1" "ICCa" =
      sampleSelection ∧
    (toggleRowParam sampleSelection "r1" "ICCa").selectedRowIds =
      sampleSelection.selectedRowIds := by
  have h := c10_toggle_row_param sampleSelection "r1" "ICCa"
    ({"NgesTOC", "ICCa"} : Finset String) (by decide)
  exact ⟨h.1, h.2.1⟩

/-- Helper: the key sequence of an object after one assignment. -/
theorem objInsert_keys (m : List (String × String)) (k v : String) :
    (objInsert m k v).map Prod.fst =
      if k ∈ m.map Prod.fst then m.map Prod.fst else m.map Prod.fst ++ [k] := by
  unfold objInsert
  split_ifs with h
  · rw [List.map_map]
    apply List.map_congr_left
    intro e _
    by_cases he : e.1 = k
    · simp [he]
    · simp [he]
  · simp

/-- Helper: key membership after one object assignment. -/
theorem mem_objInsert_keys (m : List (String × String)) (k v a : String) :
    a ∈ (objInsert m k v).map Prod.fst ↔ a ∈ m.map Prod.fst ∨ a = k := by
  rw [objInsert_keys]
  split_ifs with h
  · constructor
    · exact Or.inl
    · rintro (ha | rfl)
      · exact ha
      · exact h
  · simp

/-- Helper: object assignment preserves key distinctness. -/
theorem nodup_objInsert_keys (m : List (String × String)) (k v : String)
    (hm : (m.map Prod.fst).Nodup) : ((objInsert m k v).map Prod.fst).Nodup := by
  rw [objInsert_keys]
  split_ifs with h
  · exact hm
  · simp [List.nodup_append, hm, h]

/-- Helper: key membership after folding object assignments over the
header mapping. -/
theorem foldl_objInsert_mem (g : String × Nat → String) (a : String) :
    ∀ (mapping : List (String × Nat)) (m0 : List (String × String)),
      a ∈ ((mapping.foldl (fun m it => objInsert m it.1 (g it)) m0).map Prod.fst) ↔
        a ∈ m0.map Prod.fst ∨ a ∈ mapping.map Prod.fst := by
  intro mapping
  induction mapping with
  | nil => simp
  | cons it rest ih =>
    intro m0
    rw [List.foldl_cons, ih, mem_objInsert_keys]
    simp [or_assoc]

/-- Helper: folding object assignments preserves key distinctness. -/
theorem foldl_objInsert_nodup (g : String × Nat → String) :
    ∀ (mapping : List (String × Nat)) (m0 : List (String × String)),
      (m0.map Prod.fst).Nodup →
      ((mapping.foldl (fun m it => objInsert m it.1 (g it)) m0).map Prod.fst).Nodup := by
  intro mapping
  induction mapping with
  | nil => exact fun m0 h => h
  | cons it rest ih =>
    intro m0 h
    rw [List.foldl_cons]
    exact ih _ (nodup_objInsert_keys _ _ _ h)

/-- Helper: every record that `buildRows` emits is a `mkRow` of the same
header mapping. -/
theorem mem_buildRows (mapping : List (String × Nat)) :
    ∀ (i : Nat) (l : List (List String)) (rec : LabDataRow),
      rec ∈ buildRows mapping i l → ∃ j row, rec = mkRow mapping j row := by
  intro i l
  induction l generalizing i with
  | nil =>
    intro rec h
    simp [buildRows] at h
  | cons row rest ih =>
    intro rec h
    rw [buildRows] at h
    split at h
    · exact ih _ rec h
    · rcases List.mem_cons.mp h with h1 | h1
      · exact ⟨i, row, h1⟩
      · exact ih _ rec h1

/-- Helper: the results object of one parsed row has distinct keys and
exactly the header-mapping names as keys. -/
theorem mkRow_keys (mapping : List (String × Nat)) (i : Nat) (row : List String) :
    ((mkRow mapping i row).results.map Prod.fst).Nodup ∧
    ∀ h, h ∈ (mkRow mapping i row).results.map Prod.fst ↔ h ∈ mapping.map Prod.fst := by
  constructor
  · exact foldl_objInsert_nodup _ mapping [] (by simp)
  · intro h
    rw [show (mkRow mapping i row).results =
      mapping.foldl (fun m item => objInsert m item.1 (jsTrim (row.getD item.2 ""))) []
      from rfl]
    rw [foldl_objInsert_mem (fun item => jsTrim (row.getD item.2 ""))]
    simp

/-- C8: after every successful ingestion the result headers are sorted
ascending by the collation, they are a permutation of the trimmed
non-blank header cells (duplicates only from genuinely duplicated
header text), and every record's results object has distinct keys that
are exactly the header names — an entry per header, never more, never
fewer. -/
theorem c8_results_invariant :
    ∀ (le : String → String → Bool) (rows : List (List String)) (ds : ParsedDataset),
      (∀ a b, le a b = true ∨ le b a = true) →
      (∀ a b c, le a b = true → le b c = true → le a c = true) →
      parseLabDataCsv le rows = .ok ds →
      List.Pairwise (fun a b => le a b = true) ds.resultHeaders ∧
      (∃ headerRow, rows[1]? = some headerRow ∧
        ds.resultHeaders.Perm ((headerMapping headerRow).map Prod.fst)) ∧
      ∀ rec ∈ ds.data,
        (rec.results.map Prod.fst).Nodup ∧
        ∀ h, h ∈ ds.resultHeaders ↔ h ∈ rec.results.map Prod.fst := by
  intro le rows ds htot htrans hok
  simp only [parseLabDataCsv] at hok
  split at hok
  · exact absurd hok (by simp)
  · split at hok
    · exact absurd hok (by simp)
    · rename_i h3 headerRow hhr
      obtain rfl : (⟨(List.insertionSort (fun a b => le a.1 b.1 = true)
          (headerMapping headerRow)).map Prod.fst,
          buildRows (List.insertionSort (fun a b => le a.1 b.1 = true)
            (headerMapping headerRow)) 2 (rows.drop 2)⟩ : ParsedDataset) = ds := by
        injection hok
      haveI : IsTotal (String × Nat) (fun a b => le a.1 b.1 = true) :=
        ⟨fun a b => htot a.1 b.1⟩
      haveI : IsTrans (String × Nat) (fun a b => le a.1 b.1 = true) :=
        ⟨fun a b c => htrans a.1 b.1 c.1⟩
      refine ⟨?_, ?_, ?_⟩
      · exact List.pairwise_map.mpr
          (List.sorted_insertionSort (fun a b : String × Nat => le a.1 b.1 = true)
            (headerMapping headerRow))
      · exact ⟨headerRow, hhr, (List.perm_insertionSort _ _).map Prod.fst⟩
      · intro rec hrec
        obtain ⟨j, row, rfl⟩ := mem_buildRows _ 2 _ rec hrec
        refine ⟨(mkRow_keys _ j row).1, fun h => ?_⟩
        rw [(mkRow_keys _ j row).2 h]

/-- C8 witness: the concrete file with a duplicated header "B" parses to
sorted headers and to records whose results object holds exactly one
entry per distinct header name. -/
theorem c8_results_invariant_witness :
    List.Pairwise (fun a b => lenLe a b = true) dsEx.resultHeaders ∧
    ∀ rec ∈ dsEx.data,
      (rec.results.map Prod.fst).Nodup ∧
      ∀ h, h ∈ dsEx.resultHeaders ↔ h ∈ rec.results.map Prod.fst := by
  have h := c8_results_invariant lenLe rowsEx dsEx
    (fun a b => by
      simp only [lenLe, decide_eq_true_eq]
      exact Nat.le_total _ _)
    (fun a b c hab hbc => by
      simp only [lenLe, decide_eq_true_eq] at hab hbc ⊢
      exact Nat.le_trans hab hbc)
    rfl
  exact ⟨h.1, h.2.2⟩

/-- Helper: `buildRows` keeps exactly the rows with at least two cells. -/
theorem buildRows_length (mapping : List (String × Nat)) :
    ∀ (i : Nat) (l : List (List String)),
      (buildRows mapping i l).length = (l.filter fun r => 2 ≤ r.length).length := by
  intro i l
  induction l generalizing i with
  | nil => rfl
  | cons row rest ih =>
    rw [buildRows]
    by_cases hc : row.length < 2 ∨ (row.length = 1 ∧ row.getD 0 "" = "")
    · have h2 : ¬ 2 ≤ row.length := by
        rcases hc with h | ⟨h, _⟩ <;> omega
      rw [if_pos hc, List.filter_cons]
      simp [h2, ih]
    · have h2 : 2 ≤ row.length := by
        by_contra hn
        exact hc (Or.inl (by omega))
      rw [if_neg hc, List.filter_cons]
      simp [h2, ih]

/-- C9: ingestion of fewer than three raw rows fails with a reported
error (no partial dataset); otherwise it succeeds and the number of
parsed records counts exactly the data rows with at least two cells —
malformed rows are skipped silently and do not abort the load. -/
theorem c9_ingestion_errors :
    ∀ (le : String → String → Bool) (rows : List (List String)),
      (rows.length < 3 → ∃ e, parseLabDataCsv le rows = .error e) ∧
      (3 ≤ rows.length → ∃ ds, parseLabDataCsv le rows = .ok ds ∧
        ds.data.length = ((rows.drop 2).filter fun r => 2 ≤ r.length).length) := by
  intro le rows
  constructor
  · intro h
    exact ⟨_, by unfold parseLabDataCsv; rw [if_pos h]⟩
  · intro h
    have h3 : ¬ rows.length < 3 := by omega
    obtain ⟨headerRow, hhr⟩ : ∃ hr, rows[1]? = some hr := by
      rcases rows with _ | ⟨a, _ | ⟨b, rest⟩⟩
      · simp at h
      · simp at h
      · exact ⟨b, by simp⟩
    refine ⟨⟨(List.insertionSort (fun a b : String × Nat => le a.1 b.1 = true)
        (headerMapping headerRow)).map Prod.fst,
      buildRows (List.insertionSort (fun a b : String × Nat => le a.1 b.1 = true)
        (headerMapping headerRow)) 2 (rows.drop 2)⟩, ?_, ?_⟩
    · unfold parseLabDataCsv
      rw [if_neg h3, hhr]
    · exact buildRows_length _ 2 _

/-- C9 witness: a two-row file is rejected with an error, while the
five-row file with one malformed middle row loads and keeps exactly the
two well-formed data rows. -/
theorem c9_ingestion_errors_witness :
    (∃ e, parseLabDataCsv lenLe [["a"], ["b"]] = .error e) ∧
    (∃ ds, parseLabDataCsv lenLe rowsEx = .ok ds ∧
      ds.data.length = ((rowsEx.drop 2).filter fun r => 2 ≤ r.length).length) := by
  exact ⟨(c9_ingestion_errors lenLe [["a"], ["b"]]).1 (by decide),
    (c9_ingestion_errors lenLe rowsEx).2 (by decide)⟩
